import Mathlib

/-!
Shallow embedding of the RediSearch C-API layer (src/src/redisearch_api.c).

Pure functions of the C file are translated to Lean functions.  The file is a
thin wrapper: several callees (the query evaluator, the union iterator, the
numeric filter, the document table, the query-node free routine) live outside
the provided sources; those are modelled from the specification and each such
definition carries a doc comment starting with -- Modelled from the spec.
Machine doubles are modelled as rationals (only order comparisons matter here),
C strings as Lean strings, and a compiled result iterator by its full read
sequence of internal document identifiers.
-/

namespace RediSearchApi

/-- Modelled from the spec: the document table (external collaborator, not in
src) maps opaque external keys to internal monotonic identifiers and back;
identifier 0 denotes absence, matching the source's test
DocTable_GetIdR(...) == 0 for a missing key in RS_DropDocument. -/
structure DocTable where
  idFor : String → Nat
  keyFor : Nat → Option String

/-- Modelled from the spec: keyFor(internalId) -> externalKey or none. -/
def DocTable_GetKey (docs : DocTable) (docId : Nat) : Option String :=
  docs.keyFor docId

/-- Modelled from the spec: idFor(externalKey) -> internalId, with 0 standing
for a key that is not present. -/
def DocTable_GetIdR (docs : DocTable) (docKey : String) : Nat :=
  docs.idFor docKey

/-- The slice of IndexSpec the C API layer reads: a field resolver (field name
to field-mask bit) and the document table. -/
structure IndexSpec where
  specName : String
  fields : List (String × Nat)
  docs : DocTable

/-- Modelled from the spec: the Field Resolver, resolve(name) -> bit; none when
the name does not resolve to a schema field. -/
def resolveField (sp : IndexSpec) (name : String) : Option Nat :=
  (sp.fields.find? (fun p => p.1 == name)).map (fun p => p.2)

/-- Modelled from the spec: the bit-returning resolver called by the node
constructors; its C return type (a plain mask) has no failure channel, so a
name that does not resolve yields the empty mask. -/
def IndexSpec_GetFieldBit (sp : IndexSpec) (name : String) : Nat :=
  (resolveField sp name).getD 0

/-- The all-fields sentinel mask (RS_FIELDMASK_ALL); the exact width is
immaterial to the claims, only that it is the distinguished default. -/
def RS_FIELDMASK_ALL : Nat := 2 ^ 128 - 1

/-- A document as built by RS_CreateDocument: key, score, language. -/
structure Document where
  docKey : String
  score : Rat
  language : String

/-- Modelled from document.h (not in src): the replace option bit for
document submission. -/
def DOCUMENT_ADD_REPLACE : Nat := 1

/-- Modelled from document.h (not in src): the no-save option bit, distinct
from the replace bit. -/
def DOCUMENT_ADD_NOSAVE : Nat := 4

/-- Embeds the observable decision of RS_SpecAddDocument: options start at 0,
the replace bit is added exactly when DocTable_GetIdR finds the document key,
the no-save bit is always added, and the resulting options word is what is
passed to AddDocumentCtx_Submit. -/
def RS_SpecAddDocument (sp : IndexSpec) (d : Document) : Nat :=
  let options : Nat := 0
  let docExists : Bool := DocTable_GetIdR sp.docs d.docKey != 0
  let options := if docExists then options ||| DOCUMENT_ADD_REPLACE else options
  options ||| DOCUMENT_ADD_NOSAVE

/-- The numeric filter payload built by NewNumericFilter (numeric_filter.c is
not in src; field layout modelled from the spec: half/fully-open numeric
range with a field name). -/
structure NumericFilter where
  min : Rat
  max : Rat
  inclusiveMin : Bool
  inclusiveMax : Bool
  fieldName : String
deriving DecidableEq

/-- Modelled from the spec: NewNumericFilter(min, max, inclusiveMin,
inclusiveMax) records the range exactly as given; the field name is filled in
afterwards by the caller. -/
def NewNumericFilter (mn mx : Rat) (inclusiveMin inclusiveMax : Bool) : NumericFilter :=
  { min := mn, max := mx, inclusiveMin := inclusiveMin, inclusiveMax := inclusiveMax,
    fieldName := "" }

/-- Modelled from the spec: a value matches the numeric range when it lies
between min and max, each bound strict or inclusive per its flag. -/
def numericMatch (nf : NumericFilter) (v : Rat) : Bool :=
  (if nf.inclusiveMin then decide (nf.min ≤ v) else decide (nf.min < v)) &&
  (if nf.inclusiveMax then decide (v ≤ nf.max) else decide (v < nf.max))

/-- The query-node type tag (QueryNodeType), one per payload variant used by
this API layer. -/
inductive QNType where
  | QN_TOKEN
  | QN_NUMERIC
  | QN_PREFX
  | QN_LEXRANGE
  | QN_TAG
  | QN_PHRASE
  | QN_UNION
deriving DecidableEq

/-- The per-node options; the API layer only reads and writes the field mask. -/
structure QueryNodeOptions where
  fieldMask : Nat
deriving DecidableEq

mutual
/-- A query node: payload union plus options, mirroring the C struct with a
type tag (the tag is recovered from the payload by QueryNode.type). -/
inductive QueryNode where
  | mk (pay : QNPayload) (opts : QueryNodeOptions) : QueryNode

/-- The payload union of a query node; container variants carry the children
array together with the numChildren count, exactly as the C struct does (the
count, not the array length, is what the API reads). -/
inductive QNPayload where
  | tn (str : String) (len : Nat) (expanded : Bool) (flags : Nat) : QNPayload
  | nn (nf : NumericFilter) : QNPayload
  | pfx (str : String) (len : Nat) (expanded : Bool) (flags : Nat) : QNPayload
  | lxrng (lbegin : Option String) (lend : Option String) : QNPayload
  | tag (fieldName : String) (len : Nat) (children : List QueryNode)
      (numChildren : Nat) : QNPayload
  | pn (children : List QueryNode) (numChildren : Nat) (exact : Bool) : QNPayload
  | un (children : List QueryNode) (numChildren : Nat) : QNPayload
end

/-- The payload of a node. -/
def QueryNode.pay : QueryNode → QNPayload
  | .mk p _ => p

/-- The options of a node. -/
def QueryNode.opts : QueryNode → QueryNodeOptions
  | .mk _ o => o

/-- The node's type tag, as RS_QueryNodeType reports it. -/
def QueryNode.type : QueryNode → QNType
  | .mk (.tn ..) _ => .QN_TOKEN
  | .mk (.nn ..) _ => .QN_NUMERIC
  | .mk (.pfx ..) _ => .QN_PREFX
  | .mk (.lxrng ..) _ => .QN_LEXRANGE
  | .mk (.tag ..) _ => .QN_TAG
  | .mk (.pn ..) _ => .QN_PHRASE
  | .mk (.un ..) _ => .QN_UNION

/-- RS_QueryNodeType returns the node's type tag. -/
def RS_QueryNodeType (qn : QueryNode) : QNType :=
  qn.type

/-- RS_QueryNodeGetFieldMask returns the node's field mask. -/
def RS_QueryNodeGetFieldMask (qn : QueryNode) : Nat :=
  qn.opts.fieldMask

/-- Modelled from the spec: NewQueryNode (query.c, not in src) allocates a
node whose options default to the all-fields mask. -/
def NewQueryNode (p : QNPayload) : QueryNode :=
  .mk p { fieldMask := RS_FIELDMASK_ALL }

/-- RS_CreateTokenNode: copies the token text (strdup in C becomes storing the
string value), records its length, and overwrites the default mask with the
field's bit exactly when a field name is supplied. -/
def RS_CreateTokenNode (sp : IndexSpec) (fieldName : Option String) (token : String) :
    QueryNode :=
  let ret := NewQueryNode (.tn token token.length false 0)
  match fieldName with
  | some f => .mk ret.pay { ret.opts with fieldMask := IndexSpec_GetFieldBit sp f }
  | none => ret

/-- RS_CreateNumericNode: note the C parameter order is (sp, field, max, min,
includeMax, includeMin); the filter is built as NewNumericFilter(min, max,
includeMin, includeMax) and the field name is copied into it; the mask is set
unconditionally from the resolver. -/
def RS_CreateNumericNode (sp : IndexSpec) (field : String) (mx mn : Rat)
    (includeMax includeMin : Bool) : QueryNode :=
  let nf := { NewNumericFilter mn mx includeMin includeMax with fieldName := field }
  let ret := NewQueryNode (.nn nf)
  .mk ret.pay { ret.opts with fieldMask := IndexSpec_GetFieldBit sp field }

/-- RS_CreatePrefixNode: same shape as the token constructor, with the pfx
payload. -/
def RS_CreatePrefixNode (sp : IndexSpec) (fieldName : Option String) (s : String) :
    QueryNode :=
  let ret := NewQueryNode (.pfx s s.length false 0)
  match fieldName with
  | some f => .mk ret.pay { ret.opts with fieldMask := IndexSpec_GetFieldBit sp f }
  | none => ret

/-- RS_CreateLexRangeNode: optional bounds stored when given; mask set when a
field name is given. -/
def RS_CreateLexRangeNode (sp : IndexSpec) (fieldName : Option String)
    (lbegin lend : Option String) : QueryNode :=
  let ret := NewQueryNode (.lxrng lbegin lend)
  match fieldName with
  | some f => .mk ret.pay { ret.opts with fieldMask := IndexSpec_GetFieldBit sp f }
  | none => ret

/-- RS_CreateTagNode: empty children, zero count, mask set unconditionally
from the resolver. -/
def RS_CreateTagNode (sp : IndexSpec) (field : String) : QueryNode :=
  let ret := NewQueryNode (.tag field field.length [] 0)
  .mk ret.pay { ret.opts with fieldMask := IndexSpec_GetFieldBit sp field }

/-- RS_CreateIntersectNode: a phrase node with no children and the given exact
flag (the schema argument is unused, as in C). -/
def RS_CreateIntersectNode (sp : IndexSpec) (exact : Bool) : QueryNode :=
  NewQueryNode (.pn [] 0 exact)

/-- RS_CreateUnionNode: a union node with no children. -/
def RS_CreateUnionNode (sp : IndexSpec) : QueryNode :=
  NewQueryNode (.un [] 0)

/-- Modelled from the spec: QueryPhraseNode_AddChild (query.c, not in src)
appends the child at slot numChildren of a Phrase node and bumps the count;
applying a container-only operation to a non-Phrase node is rejected by the
assertion-style guard, rendered here as none. -/
def QueryPhraseNode_AddChild (qn child : QueryNode) : Option QueryNode :=
  match qn with
  | .mk (.pn cs n exact) o => some (.mk (.pn (cs.take n ++ [child]) (n + 1) exact) o)
  | _ => none

/-- Modelled from the spec: QueryUnionNode_AddChild (query.c, not in src)
appends the child at slot numChildren of a Union node and bumps the count;
non-Union nodes are rejected. -/
def QueryUnionNode_AddChild (qn child : QueryNode) : Option QueryNode :=
  match qn with
  | .mk (.un cs n) o => some (.mk (.un (cs.take n ++ [child]) (n + 1)) o)
  | _ => none

/-- Modelled from the spec: QueryTagNode_AddChildren (query.c, not in src)
appends the given children to a Tag node; non-Tag nodes are rejected. -/
def QueryTagNode_AddChildren (qn : QueryNode) (args : List QueryNode) : Option QueryNode :=
  match qn with
  | .mk (.tag f l cs n) o =>
      some (.mk (.tag f l (cs.take n ++ args) (n + args.length)) o)
  | _ => none

/-- RS_TagNodeAddChild forwards one child to QueryTagNode_AddChildren. -/
def RS_TagNodeAddChild (qn child : QueryNode) : Option QueryNode :=
  QueryTagNode_AddChildren qn [child]

/-- RS_IntersectNodeAddChild forwards to QueryPhraseNode_AddChild (the entry
point itself has no assert; the guard is the callee's). -/
def RS_IntersectNodeAddChild (qn child : QueryNode) : Option QueryNode :=
  QueryPhraseNode_AddChild qn child

/-- RS_UnionNodeAddChild asserts the union tag, then forwards to
QueryUnionNode_AddChild. -/
def RS_UnionNodeAddChild (qn child : QueryNode) : Option QueryNode :=
  if qn.type = QNType.QN_UNION then QueryUnionNode_AddChild qn child else none

/-- RS_IntersectNodeClearChildren: asserts the phrase tag and sets numChildren
to 0.  The children array is left in place and no free is performed; the
second component is the trace of freed nodes, empty here because the source
body frees nothing. -/
def RS_IntersectNodeClearChildren (qn : QueryNode) : Option (QueryNode × List QueryNode) :=
  match qn with
  | .mk (.pn cs _ exact) o => some (.mk (.pn cs 0 exact) o, [])
  | _ => none

/-- RS_UnionNodeClearChildren: asserts the union tag and sets numChildren to
0, freeing nothing. -/
def RS_UnionNodeClearChildren (qn : QueryNode) : Option (QueryNode × List QueryNode) :=
  match qn with
  | .mk (.un cs _) o => some (.mk (.un cs 0) o, [])
  | _ => none

/-- RS_IntersectNodeGetNumChildren: asserts the phrase tag and returns the
numChildren count. -/
def RS_IntersectNodeGetNumChildren (qn : QueryNode) : Option Nat :=
  match qn with
  | .mk (.pn _ n _) _ => some n
  | _ => none

/-- RS_IntersectNodeGetChild: asserts the phrase tag and index < numChildren,
then reads children[index]. -/
def RS_IntersectNodeGetChild (qn : QueryNode) (index : Nat) : Option QueryNode :=
  match qn with
  | .mk (.pn cs n _) _ => if index < n then cs[index]? else none
  | _ => none

/-- RS_UnionNodeGetNumChildren: asserts the union tag and returns the count. -/
def RS_UnionNodeGetNumChildren (qn : QueryNode) : Option Nat :=
  match qn with
  | .mk (.un _ n) _ => some n
  | _ => none

/-- RS_UnionNodeGetChild: asserts the union tag and index < numChildren, then
reads children[index]. -/
def RS_UnionNodeGetChild (qn : QueryNode) (index : Nat) : Option QueryNode :=
  match qn with
  | .mk (.un cs n) _ => if index < n then cs[index]? else none
  | _ => none

/-- Folds addChild over a list of children, as a caller performing N addChild
calls would; a rejected call leaves the accumulator unchanged. -/
def addChildren (add : QueryNode → QueryNode → Option QueryNode)
    (qn : QueryNode) (cs : List QueryNode) : QueryNode :=
  cs.foldl (fun acc c => (add acc c).getD acc) qn

/-- Minimum of a list of naturals, none for the empty list; used by the merge
to find the least identifier the child cursors are positioned at. -/
def listMin : List Nat → Option Nat
  | [] => none
  | x :: xs =>
      match listMin xs with
      | none => some x
      | some m => some (if x ≤ m then x else m)

/-- Advances every child sequence currently positioned at the minimum
identifier m, dropping that head; other sequences are untouched. -/
def advanceMin (m : Nat) (ls : List (List Nat)) : List (List Nat) :=
  ls.map fun l => if l.head? = some m then l.tail else l

/-- Total number of pending identifiers across all child sequences; the merge
consumes at least one per emitted identifier, so this bounds the fuel. -/
def lenSum (ls : List (List Nat)) : Nat :=
  (ls.map List.length).sum

/-- Modelled from the spec: one step of the k-way ascending union merge per
unit of fuel — emit the least identifier any child is positioned at, advance
every child positioned at it (deduplicating), stop when all children are
exhausted.  Fuel only serves termination; unionMerge supplies enough. -/
def unionMergeF : Nat → List (List Nat) → List Nat
  | 0, _ => []
  | fuel + 1, ls =>
      match listMin (ls.filterMap List.head?) with
      | none => []
      | some m => m :: unionMergeF fuel (advanceMin m ls)

/-- Modelled from the spec: the union iterator's full read sequence, the k-way
ascending deduplicated merge of its children's read sequences. -/
def unionMerge (ls : List (List Nat)) : List Nat :=
  unionMergeF (lenSum ls) ls

/-- Modelled from the spec: sorted-merge intersection of the children's
ascending sequences, rendered on full sequences (term-position metadata and
the exact-adjacency refinement are outside this embedding; no claim depends
on them). -/
def intersectLists : List (List Nat) → List Nat
  | [] => []
  | l :: ls => ls.foldl (fun acc l2 => acc.filter (fun x => l2.contains x)) l

mutual
/-- Modelled from the spec: Query_EvalNode (query.c, not in src) compiles a
node bottom-up into its read sequence; leaves resolve through the external
posting-list provider (the post parameter), Union and Tag produce the k-way
ascending deduplicated merge of their attached children (the first
numChildren slots), Phrase produces the intersection merge. -/
def Query_EvalNode (post : QNPayload → List Nat) : QueryNode → List Nat
  | .mk (.tn s l e f) _ => post (.tn s l e f)
  | .mk (.nn nf) _ => post (.nn nf)
  | .mk (.pfx s l e f) _ => post (.pfx s l e f)
  | .mk (.lxrng b e) _ => post (.lxrng b e)
  | .mk (.tag _ _ cs n) _ => unionMerge (evalChildren post n cs)
  | .mk (.pn cs n _) _ => intersectLists (evalChildren post n cs)
  | .mk (.un cs n) _ => unionMerge (evalChildren post n cs)

/-- Read sequences of the first n children, in order. -/
def evalChildren (post : QNPayload → List Nat) : Nat → List QueryNode → List (List Nat)
  | _, [] => []
  | 0, _ :: _ => []
  | n + 1, c :: cs => Query_EvalNode post c :: evalChildren post n cs
end

mutual
/-- Modelled from the spec: QueryNode_Free (query.c, not in src) recursively
frees the attached children and then the node itself; the value is the trace
of freed nodes in free order. -/
def QueryNode_Free : QueryNode → List QueryNode
  | .mk (.tag f l cs n) o => freeChildren n cs ++ [.mk (.tag f l cs n) o]
  | .mk (.pn cs n exact) o => freeChildren n cs ++ [.mk (.pn cs n exact) o]
  | .mk (.un cs n) o => freeChildren n cs ++ [.mk (.un cs n) o]
  | qn => [qn]

/-- Free trace of the first n children, in order. -/
def freeChildren : Nat → List QueryNode → List QueryNode
  | _, [] => []
  | 0, _ :: _ => []
  | n + 1, c :: cs => QueryNode_Free c ++ freeChildren n cs
end

mutual
/-- Number of nodes of the tree (the node itself plus its attached subtrees),
defined independently of the free routine. -/
def treeSize : QueryNode → Nat
  | .mk (.tag _ _ cs n) _ => 1 + sizeChildren n cs
  | .mk (.pn cs n _) _ => 1 + sizeChildren n cs
  | .mk (.un cs n) _ => 1 + sizeChildren n cs
  | _ => 1

/-- Total node count of the first n children. -/
def sizeChildren : Nat → List QueryNode → Nat
  | _, [] => 0
  | 0, _ :: _ => 0
  | n + 1, c :: cs => treeSize c + sizeChildren n cs
end

/-- Modelled from the spec: the expansion pass is optional and external;
RS_GetResultsIterator invokes QAST_Expand with a NULL expander, which leaves
the tree unchanged. -/
def QAST_Expand (qn : QueryNode) : QueryNode :=
  qn

/-- RS_GetResultsIterator: expand (with no expander), evaluate the root into
the compiled iterator's read sequence, and free the handed-in tree.  The
result pairs the read sequence with the trace of nodes freed during
compilation. -/
def RS_GetResultsIterator (post : QNPayload → List Nat) (qn : QueryNode)
    (sp : IndexSpec) : List Nat × List QueryNode :=
  let root := QAST_Expand qn
  (Query_EvalNode post root, QueryNode_Free qn)

/-- RS_QueryNodeFree frees the tree, returning the trace of freed nodes. -/
def RS_QueryNodeFree (qn : QueryNode) : List QueryNode :=
  QueryNode_Free qn

/-- RS_ResultsIteratorNext, with the compiled iterator rendered by its
remaining read sequence: read identifiers until one resolves through the
document table; a failed lookup is skipped, end-of-stream yields none. -/
def RS_ResultsIteratorNext (iter : List Nat) (sp : IndexSpec) : Option String :=
  match iter with
  | [] => none
  | i :: rest =>
      match DocTable_GetKey sp.docs i with
      | some k => some k
      | none => RS_ResultsIteratorNext rest sp

/-- Projects the numeric-filter payload out of a node, none for other
variants; observation helper for the numeric-node theorems. -/
def nodeNumericFilter : QueryNode → Option NumericFilter
  | .mk (.nn nf) _ => some nf
  | _ => none

/-- Sample document table for concrete witnesses: key df maps to id 1. -/
def wDocTable : DocTable :=
  { idFor := fun k => if k = "df" then 1 else 0,
    keyFor := fun i => if i = 1 then some "df" else none }

/-- Sample schema with a single text field named title on bit 1. -/
def wSp : IndexSpec :=
  { specName := "idx", fields := [("title", 1)], docs := wDocTable }

/-- Sample schema with no fields at all. -/
def wSpEmpty : IndexSpec :=
  { specName := "empty", fields := [], docs := wDocTable }

/-- Sample posting-list provider: token quick appears in documents 1 and 3,
token brown in 2, 3 and 5; everything else is empty. -/
def wPost : QNPayload → List Nat
  | .tn s _ _ _ => if s = "quick" then [1, 3] else if s = "brown" then [2, 3, 5] else []
  | _ => []

/-- Sample token node for quick in field title. -/
def wTokQuick : QueryNode :=
  RS_CreateTokenNode wSp (some "title") "quick"

/-- Sample token node for brown in field title. -/
def wTokBrown : QueryNode :=
  RS_CreateTokenNode wSp (some "title") "brown"

/-! Helper lemmas about the merge machinery. -/

theorem listMin_none : ∀ {xs : List Nat}, listMin xs = none → xs = [] := by
  intro xs h
  cases xs with
  | nil => rfl
  | cons x xs =>
    rw [listMin] at h
    cases hmin : listMin xs <;> rw [hmin] at h <;> simp at h

theorem listMin_mem : ∀ {xs : List Nat} {m : Nat}, listMin xs = some m → m ∈ xs := by
  intro xs
  induction xs with
  | nil => intro m h; simp [listMin] at h
  | cons x xs ih =>
    intro m h
    cases hmin : listMin xs with
    | none =>
      rw [listMin, hmin] at h
      simp only [Option.some.injEq] at h
      simp [← h]
    | some m2 =>
      rw [listMin, hmin] at h
      simp only [Option.some.injEq] at h
      split at h
      · simp [← h]
      · rw [← h]
        exact List.mem_cons_of_mem x (ih hmin)

theorem listMin_le : ∀ {xs : List Nat} {m : Nat}, listMin xs = some m → ∀ x ∈ xs, m ≤ x := by
  intro xs
  induction xs with
  | nil => intro m h; simp [listMin] at h
  | cons x xs ih =>
    intro m h y hy
    rw [listMin] at h
    rcases List.mem_cons.mp hy with rfl | hy2
    · cases hmin : listMin xs with
      | none => rw [hmin] at h; simp only [Option.some.injEq] at h; omega
      | some m2 =>
        rw [hmin] at h
        simp only [Option.some.injEq] at h
        split at h <;> omega
    · cases hmin : listMin xs with
      | none =>
        have := listMin_none hmin
        subst this
        simp at hy2
      | some m2 =>
        rw [hmin] at h
        simp only [Option.some.injEq] at h
        have h2 := ih hmin y hy2
        split at h <;> omega

theorem lenSum_cons (l : List Nat) (ls : List (List Nat)) :
    lenSum (l :: ls) = l.length + lenSum ls := by
  simp [lenSum]

theorem lenSum_eq_zero : ∀ {ls : List (List Nat)}, lenSum ls = 0 → ∀ l ∈ ls, l = [] := by
  intro ls
  induction ls with
  | nil => intro _ l hl; simp at hl
  | cons a as ih =>
    intro h l hl
    rw [lenSum_cons] at h
    rcases List.mem_cons.mp hl with rfl | hl2
    · exact List.length_eq_zero.mp (by omega)
    · exact ih (by omega) l hl2

theorem mem_advanceMin {m : Nat} {ls : List (List Nat)} {l2 : List Nat} :
    l2 ∈ advanceMin m ls ↔ ∃ l ∈ ls, (if l.head? = some m then l.tail else l) = l2 := by
  simp [advanceMin]

theorem length_adv_le (m : Nat) (l : List Nat) :
    (if l.head? = some m then l.tail else l).length ≤ l.length := by
  split
  · cases l <;> simp
  · exact le_rfl

theorem advanceMin_cons (m : Nat) (l : List Nat) (ls : List (List Nat)) :
    advanceMin m (l :: ls) = (if l.head? = some m then l.tail else l) :: advanceMin m ls := by
  simp [advanceMin]

theorem lenSum_advanceMin_le (m : Nat) : ∀ ls : List (List Nat),
    lenSum (advanceMin m ls) ≤ lenSum ls := by
  intro ls
  induction ls with
  | nil => simp [advanceMin, lenSum]
  | cons l ls ih =>
    rw [advanceMin_cons, lenSum_cons, lenSum_cons]
    exact Nat.add_le_add (length_adv_le m l) ih

theorem lenSum_advanceMin_lt (m : Nat) : ∀ {ls : List (List Nat)},
    (∃ l ∈ ls, l.head? = some m) → lenSum (advanceMin m ls) < lenSum ls := by
  intro ls h
  induction ls with
  | nil => simp at h
  | cons l ls ih =>
    rw [advanceMin_cons, lenSum_cons, lenSum_cons]
    rcases h with ⟨l0, hl0, hh⟩
    rcases List.mem_cons.mp hl0 with rfl | hmem
    · rw [if_pos hh]
      have hlen : l0.tail.length < l0.length := by
        cases l0 with
        | nil => simp at hh
        | cons a t => simp
      exact Nat.add_lt_add_of_lt_of_le hlen (lenSum_advanceMin_le m ls)
    · exact Nat.add_lt_add_of_le_of_lt (length_adv_le m l) (ih ⟨l0, hmem, hh⟩)

theorem minHead_inv {ls : List (List Nat)} {m : Nat}
    (h : listMin (ls.filterMap List.head?) = some m) : ∃ l ∈ ls, l.head? = some m := by
  have hm := listMin_mem h
  rcases List.mem_filterMap.mp hm with ⟨l, hl, hh⟩
  exact ⟨l, hl, hh⟩

theorem unionMergeF_mem : ∀ (f : Nat) (ls : List (List Nat)), lenSum ls ≤ f →
    ∀ x : Nat, x ∈ unionMergeF f ls ↔ ∃ l ∈ ls, x ∈ l := by
  intro f
  induction f with
  | zero =>
    intro ls hf x
    simp only [unionMergeF, List.not_mem_nil, false_iff]
    rintro ⟨l, hl, hx⟩
    rw [lenSum_eq_zero (Nat.le_zero.mp hf) l hl] at hx
    simp at hx
  | succ f ih =>
    intro ls hf x
    cases hmin : listMin (ls.filterMap List.head?) with
    | none =>
      have hnil : ∀ l ∈ ls, l = [] := by
        intro l hl
        have h1 : ls.filterMap List.head? = [] := listMin_none hmin
        have h2 := List.filterMap_eq_nil_iff.mp h1 l hl
        exact List.head?_eq_none_iff.mp h2
      simp only [unionMergeF, hmin]
      constructor
      · intro hx; simp at hx
      · rintro ⟨l, hl, hx⟩
        rw [hnil l hl] at hx
        simp at hx
    | some m =>
      have hinv := minHead_inv hmin
      have hlt : lenSum (advanceMin m ls) < lenSum ls := lenSum_advanceMin_lt m hinv
      have hle : lenSum (advanceMin m ls) ≤ f := by omega
      have hI := ih (advanceMin m ls) hle
      simp only [unionMergeF, hmin]
      rw [List.mem_cons]
      constructor
      · rintro (rfl | hx)
        · rcases hinv with ⟨l, hl, hh⟩
          refine ⟨l, hl, ?_⟩
          cases l with
          | nil => simp at hh
          | cons a t =>
            simp only [List.head?_cons, Option.some.injEq] at hh
            simp [hh]
        · rcases (hI x).mp hx with ⟨l2, hl2, hx2⟩
          rcases mem_advanceMin.mp hl2 with ⟨l, hl, rfl⟩
          by_cases hh : l.head? = some m
          · rw [if_pos hh] at hx2
            exact ⟨l, hl, List.mem_of_mem_tail hx2⟩
          · rw [if_neg hh] at hx2
            exact ⟨l, hl, hx2⟩
      · rintro ⟨l, hl, hx⟩
        by_cases hxm : x = m
        · exact Or.inl hxm
        · right
          apply (hI x).mpr
          refine ⟨if l.head? = some m then l.tail else l,
            mem_advanceMin.mpr ⟨l, hl, rfl⟩, ?_⟩
          by_cases hh : l.head? = some m
          · rw [if_pos hh]
            cases l with
            | nil => simp at hh
            | cons a t =>
              simp only [List.head?_cons, Option.some.injEq] at hh
              rcases List.mem_cons.mp hx with rfl | hxt
              · exact absurd hh hxm
              · simpa using hxt
          · rw [if_neg hh]
            exact hx

theorem sorted_tail {l : List Nat} (h : List.Sorted (· < ·) l) :
    List.Sorted (· < ·) l.tail := by
  cases l with
  | nil => simp
  | cons a t => exact (List.sorted_cons.mp h).2

theorem advance_elem_gt {ls : List (List Nat)} {m y : Nat}
    (hmin : listMin (ls.filterMap List.head?) = some m)
    (hs : ∀ l ∈ ls, List.Sorted (· < ·) l)
    {l2 : List Nat} (hl2 : l2 ∈ advanceMin m ls) (hy : y ∈ l2) : m < y := by
  rcases mem_advanceMin.mp hl2 with ⟨l, hl, rfl⟩
  have hsl := hs l hl
  cases l with
  | nil => simp at hy
  | cons a t =>
    have ha : m ≤ a :=
      listMin_le hmin a (List.mem_filterMap.mpr ⟨a :: t, hl, rfl⟩)
    by_cases hh : a = m
    · rw [if_pos (by simp [hh])] at hy
      have := (List.sorted_cons.mp hsl).1 y hy
      omega
    · rw [if_neg (by simp [hh])] at hy
      rcases List.mem_cons.mp hy with rfl | hyt
      · omega
      · have := (List.sorted_cons.mp hsl).1 y hyt
        omega

theorem unionMergeF_sorted : ∀ (f : Nat) (ls : List (List Nat)), lenSum ls ≤ f →
    (∀ l ∈ ls, List.Sorted (· < ·) l) → List.Sorted (· < ·) (unionMergeF f ls) := by
  intro f
  induction f with
  | zero => intro ls _ _; simp [unionMergeF]
  | succ f ih =>
    intro ls hf hs
    cases hmin : listMin (ls.filterMap List.head?) with
    | none => simp [unionMergeF, hmin]
    | some m =>
      have hinv := minHead_inv hmin
      have hlt : lenSum (advanceMin m ls) < lenSum ls := lenSum_advanceMin_lt m hinv
      have hle : lenSum (advanceMin m ls) ≤ f := by omega
      have hs2 : ∀ l2 ∈ advanceMin m ls, List.Sorted (· < ·) l2 := by
        intro l2 hl2
        rcases mem_advanceMin.mp hl2 with ⟨l, hl, rfl⟩
        split
        · exact sorted_tail (hs l hl)
        · exact hs l hl
      simp only [unionMergeF, hmin]
      rw [List.sorted_cons]
      constructor
      · intro y hy
        rcases (unionMergeF_mem f (advanceMin m ls) hle y).mp hy with ⟨l2, hl2, hy2⟩
        exact advance_elem_gt hmin hs hl2 hy2
      · exact ih (advanceMin m ls) hle hs2

theorem unionMerge_mem (ls : List (List Nat)) (x : Nat) :
    x ∈ unionMerge ls ↔ ∃ l ∈ ls, x ∈ l :=
  unionMergeF_mem _ ls le_rfl x

theorem unionMerge_sorted (ls : List (List Nat))
    (h : ∀ l ∈ ls, List.Sorted (· < ·) l) : List.Sorted (· < ·) (unionMerge ls) :=
  unionMergeF_sorted _ ls le_rfl h

theorem evalChildren_eq (post : QNPayload → List Nat) : ∀ (n : Nat) (cs : List QueryNode),
    evalChildren post n cs = (cs.take n).map (Query_EvalNode post) := by
  intro n cs
  induction cs generalizing n with
  | nil => cases n <;> rfl
  | cons c cs ih =>
    cases n with
    | zero => rfl
    | succ k => simp [evalChildren, ih k]

mutual
theorem QueryNode_Free_length : ∀ qn : QueryNode, (QueryNode_Free qn).length = treeSize qn
  | .mk (.tn s l e f) o => rfl
  | .mk (.nn nf) o => rfl
  | .mk (.pfx s l e f) o => rfl
  | .mk (.lxrng b e) o => rfl
  | .mk (.tag f l cs n) o => by
      simp [QueryNode_Free, treeSize, freeChildren_length n cs, Nat.add_comm]
  | .mk (.pn cs n exact) o => by
      simp [QueryNode_Free, treeSize, freeChildren_length n cs, Nat.add_comm]
  | .mk (.un cs n) o => by
      simp [QueryNode_Free, treeSize, freeChildren_length n cs, Nat.add_comm]

theorem freeChildren_length : ∀ (n : Nat) (cs : List QueryNode),
    (freeChildren n cs).length = sizeChildren n cs
  | n, [] => by cases n <;> rfl
  | 0, _ :: _ => rfl
  | n + 1, c :: cs => by
      simp [freeChildren, sizeChildren, QueryNode_Free_length c, freeChildren_length n cs]
end

theorem root_mem_free (qn : QueryNode) : qn ∈ QueryNode_Free qn := by
  cases qn with
  | mk p o =>
    cases p <;> simp [QueryNode_Free]

theorem addChildren_pn (arr : List QueryNode) (exact : Bool) (o : QueryNodeOptions) :
    ∀ cs : List QueryNode,
    addChildren RS_IntersectNodeAddChild (.mk (.pn arr arr.length exact) o) cs
      = .mk (.pn (arr ++ cs) (arr ++ cs).length exact) o := by
  intro cs
  induction cs generalizing arr with
  | nil => simp [addChildren]
  | cons c cs ih =>
    show addChildren RS_IntersectNodeAddChild _ (c :: cs) = _
    rw [addChildren, List.foldl_cons]
    have hstep : (RS_IntersectNodeAddChild (.mk (.pn arr arr.length exact) o) c).getD
        (.mk (.pn arr arr.length exact) o)
        = QueryNode.mk (.pn (arr ++ [c]) (arr ++ [c]).length exact) o := by
      simp [RS_IntersectNodeAddChild, QueryPhraseNode_AddChild]
    rw [hstep]
    have := ih (arr ++ [c])
    rw [addChildren] at this
    rw [this]
    simp

theorem addChildren_un (arr : List QueryNode) (o : QueryNodeOptions) :
    ∀ cs : List QueryNode,
    addChildren RS_UnionNodeAddChild (.mk (.un arr arr.length) o) cs
      = .mk (.un (arr ++ cs) (arr ++ cs).length) o := by
  intro cs
  induction cs generalizing arr with
  | nil => simp [addChildren]
  | cons c cs ih =>
    rw [addChildren, List.foldl_cons]
    have hstep : (RS_UnionNodeAddChild (.mk (.un arr arr.length) o) c).getD
        (.mk (.un arr arr.length) o)
        = QueryNode.mk (.un (arr ++ [c]) (arr ++ [c]).length) o := by
      simp [RS_UnionNodeAddChild, QueryNode.type, QueryUnionNode_AddChild]
    rw [hstep]
    have := ih (arr ++ [c])
    rw [addChildren] at this
    rw [this]
    simp

/-! The ten claims. -/

/-- C1: a Union node whose attached children compile to strictly ascending
read sequences S1..Sk compiles, through RS_GetResultsIterator, to an iterator
whose full read sequence is strictly ascending (hence duplicate-free) and
contains exactly the identifiers occurring in at least one of S1..Sk — the
strictly ascending deduplicated union of S1..Sk; a Union with zero children
compiles to the empty read sequence, immediate end-of-stream. -/
theorem union_compile_correct (post : QNPayload → List Nat) (sp : IndexSpec)
    (cs : List QueryNode) (n : Nat) (o : QueryNodeOptions)
    (h : ∀ c ∈ cs.take n, List.Sorted (· < ·) (Query_EvalNode post c)) :
    List.Sorted (· < ·) (RS_GetResultsIterator post (.mk (.un cs n) o) sp).1
    ∧ (∀ x, x ∈ (RS_GetResultsIterator post (.mk (.un cs n) o) sp).1 ↔
        ∃ c ∈ cs.take n, x ∈ Query_EvalNode post c)
    ∧ (RS_GetResultsIterator post (.mk (.un [] 0) o) sp).1 = [] := by
  have hev : (RS_GetResultsIterator post (.mk (.un cs n) o) sp).1
      = unionMerge ((cs.take n).map (Query_EvalNode post)) := by
    simp [RS_GetResultsIterator, QAST_Expand, Query_EvalNode, evalChildren_eq]
  refine ⟨?_, ?_, ?_⟩
  · rw [hev]
    apply unionMerge_sorted
    intro l hl
    rcases List.mem_map.mp hl with ⟨c, hc, rfl⟩
    exact h c hc
  · intro x
    rw [hev, unionMerge_mem]
    constructor
    · rintro ⟨l, hl, hx⟩
      rcases List.mem_map.mp hl with ⟨c, hc, rfl⟩
      exact ⟨c, hc, hx⟩
    · rintro ⟨c, hc, hx⟩
      exact ⟨_, List.mem_map_of_mem _ hc, hx⟩
  · rfl

/-- C1 witness: a Union of two title tokens, quick with postings 1,3 and
brown with postings 2,3,5; the children are sorted and the theorem applies. -/
theorem union_compile_correct_witness :
    (∀ c ∈ ([wTokQuick, wTokBrown] : List QueryNode).take 2,
      List.Sorted (· < ·) (Query_EvalNode wPost c))
    ∧ (List.Sorted (· < ·)
        (RS_GetResultsIterator wPost (.mk (.un [wTokQuick, wTokBrown] 2)
          ⟨RS_FIELDMASK_ALL⟩) wSp).1
      ∧ (∀ x, x ∈ (RS_GetResultsIterator wPost (.mk (.un [wTokQuick, wTokBrown] 2)
          ⟨RS_FIELDMASK_ALL⟩) wSp).1 ↔
          ∃ c ∈ ([wTokQuick, wTokBrown] : List QueryNode).take 2,
            x ∈ Query_EvalNode wPost c)
      ∧ (RS_GetResultsIterator wPost (.mk (.un [] 0) ⟨RS_FIELDMASK_ALL⟩) wSp).1 = []) :=
  ⟨by decide,
    union_compile_correct wPost wSp [wTokQuick, wTokBrown] 2 ⟨RS_FIELDMASK_ALL⟩ (by decide)⟩

/-- C2: RS_GetResultsIterator consumes the handed-in root: alongside the read
sequence it performs exactly one recursive free of the whole tree — the freed
trace is one QueryNode_Free pass, its length equals the number of nodes of
the tree (each node freed exactly once), and the root itself is in it, so the
caller must not reuse any node afterwards. -/
theorem compile_consumes_tree (post : QNPayload → List Nat) (sp : IndexSpec)
    (qn : QueryNode) :
    (RS_GetResultsIterator post qn sp).2 = QueryNode_Free qn
    ∧ (QueryNode_Free qn).length = treeSize qn
    ∧ qn ∈ QueryNode_Free qn :=
  ⟨rfl, QueryNode_Free_length qn, root_mem_free qn⟩

/-- C3 counterexample: with a schema resolving no fields, the name price does
not resolve, yet each constructor still returns a fully constructed node (a
numeric, tag, or token node with the empty field mask) — no failure is
signalled to the caller. -/
theorem unresolved_field_still_constructs_cex :
    resolveField wSpEmpty "price" = none
    ∧ RS_CreateNumericNode wSpEmpty "price" 20 10 true false
        = .mk (.nn ⟨10, 20, false, true, "price"⟩) { fieldMask := 0 }
    ∧ RS_CreateTagNode wSpEmpty "color" = .mk (.tag "color" 5 [] 0) { fieldMask := 0 }
    ∧ RS_CreateTokenNode wSpEmpty (some "title") "fox"
        = .mk (.tn "fox" 3 false 0) { fieldMask := 0 } := by
  refine ⟨rfl, ?_, rfl, rfl⟩
  show QueryNode.mk _ _ = _
  norm_num [RS_CreateNumericNode, NewNumericFilter, NewQueryNode, QueryNode.pay,
    QueryNode.opts, IndexSpec_GetFieldBit, resolveField, wSpEmpty]

/-- C3 amended: a node-constructing operation given an unresolvable field
name does not signal failure; it returns a constructed node of the requested
variant whose field mask is the resolver's result, the empty mask 0. -/
theorem unresolved_field_mask_zero (sp : IndexSpec) (fname tok : String)
    (mx mn : Rat) (imx imn : Bool) (h : resolveField sp fname = none) :
    (RS_CreateNumericNode sp fname mx mn imx imn).type = QNType.QN_NUMERIC
    ∧ (RS_CreateNumericNode sp fname mx mn imx imn).opts.fieldMask = 0
    ∧ (RS_CreateTagNode sp fname).type = QNType.QN_TAG
    ∧ (RS_CreateTagNode sp fname).opts.fieldMask = 0
    ∧ (RS_CreateTokenNode sp (some fname) tok).type = QNType.QN_TOKEN
    ∧ (RS_CreateTokenNode sp (some fname) tok).opts.fieldMask = 0 := by
  simp [RS_CreateNumericNode, RS_CreateTagNode, RS_CreateTokenNode, NewQueryNode,
    QueryNode.pay, QueryNode.opts, QueryNode.type, IndexSpec_GetFieldBit, h]

/-- C3 amended witness: the empty schema and field price. -/
theorem unresolved_field_mask_zero_witness :
    resolveField wSpEmpty "price" = none
    ∧ ((RS_CreateNumericNode wSpEmpty "price" 20 10 true false).type = QNType.QN_NUMERIC
      ∧ (RS_CreateNumericNode wSpEmpty "price" 20 10 true false).opts.fieldMask = 0
      ∧ (RS_CreateTagNode wSpEmpty "price").type = QNType.QN_TAG
      ∧ (RS_CreateTagNode wSpEmpty "price").opts.fieldMask = 0
      ∧ (RS_CreateTokenNode wSpEmpty (some "price") "fox").type = QNType.QN_TOKEN
      ∧ (RS_CreateTokenNode wSpEmpty (some "price") "fox").opts.fieldMask = 0) :=
  ⟨rfl, unresolved_field_mask_zero wSpEmpty "price" "fox" 20 10 true false rfl⟩

/-- C4 counterexample: calling the constructor with the arguments in the
claim's order (schema, fieldName, min=10, max=20, includeMin=true,
includeMax=false) does not build a min=10/max=20 filter: the source parameter
order is (schema, field, max, min, includeMax, includeMin), so this call
stores min=20 and max=10, and a document with value exactly 10 — which the
claim says matches — does not match. -/
theorem numeric_arg_order_cex :
    nodeNumericFilter (RS_CreateNumericNode wSp "price" 10 20 true false)
      = some ⟨20, 10, false, true, "price"⟩
    ∧ (nodeNumericFilter (RS_CreateNumericNode wSp "price" 10 20 true false)).map
        (fun nf => numericMatch nf 10) = some false := by
  constructor
  · rfl
  · norm_num [RS_CreateNumericNode, NewNumericFilter, NewQueryNode,
      nodeNumericFilter, QueryNode.pay, QueryNode.opts, numericMatch]

/-- C4 amended: RS_CreateNumericNode takes its arguments in the order
(schema, fieldName, max, min, includeMax, includeMin), producing a filter
with exactly the given bounds and inclusivity flags; for the scenario bounds
min=10, max=20, includeMin=true, includeMax=false — passed in source order as
max=20, min=10, includeMax=false, includeMin=true — a value of exactly 10
matches and a value of exactly 20 does not. -/
theorem numeric_node_bounds (sp : IndexSpec) (field : String) (mx mn : Rat)
    (imx imn : Bool) :
    nodeNumericFilter (RS_CreateNumericNode sp field mx mn imx imn)
      = some ⟨mn, mx, imn, imx, field⟩
    ∧ (nodeNumericFilter (RS_CreateNumericNode sp field 20 10 false true)).map
        (fun nf => numericMatch nf 10) = some true
    ∧ (nodeNumericFilter (RS_CreateNumericNode sp field 20 10 false true)).map
        (fun nf => numericMatch nf 20) = some false := by
  refine ⟨rfl, ?_, ?_⟩ <;>
    norm_num [RS_CreateNumericNode, NewNumericFilter, NewQueryNode,
      nodeNumericFilter, QueryNode.pay, QueryNode.opts, numericMatch]

/-- C5: RS_CreateTokenNode stores a copy of the token text — the payload
holds the string value and its length, independent of the caller — and
scopes the node: a supplied field name resolving to bit b sets the field
mask to exactly b, while no field name leaves the all-fields default;
RS_CreatePrefixNode follows the same rule. -/
theorem token_copy_and_scoping (sp : IndexSpec) (name tok : String) (b : Nat)
    (hb : resolveField sp name = some b) :
    (RS_CreateTokenNode sp (some name) tok).pay = .tn tok tok.length false 0
    ∧ (RS_CreateTokenNode sp (some name) tok).opts.fieldMask = b
    ∧ (RS_CreateTokenNode sp none tok).pay = .tn tok tok.length false 0
    ∧ (RS_CreateTokenNode sp none tok).opts.fieldMask = RS_FIELDMASK_ALL
    ∧ (RS_CreatePrefixNode sp (some name) tok).pay = .pfx tok tok.length false 0
    ∧ (RS_CreatePrefixNode sp (some name) tok).opts.fieldMask = b
    ∧ (RS_CreatePrefixNode sp none tok).pay = .pfx tok tok.length false 0
    ∧ (RS_CreatePrefixNode sp none tok).opts.fieldMask = RS_FIELDMASK_ALL := by
  simp [RS_CreateTokenNode, RS_CreatePrefixNode, NewQueryNode, QueryNode.pay,
    QueryNode.opts, IndexSpec_GetFieldBit, hb]

/-- C5 witness: field title resolves to bit 1 in the sample schema. -/
theorem token_copy_and_scoping_witness :
    resolveField wSp "title" = some 1
    ∧ ((RS_CreateTokenNode wSp (some "title") "fox").pay
        = .tn "fox" "fox".length false 0
      ∧ (RS_CreateTokenNode wSp (some "title") "fox").opts.fieldMask = 1
      ∧ (RS_CreateTokenNode wSp none "fox").pay = .tn "fox" "fox".length false 0
      ∧ (RS_CreateTokenNode wSp none "fox").opts.fieldMask = RS_FIELDMASK_ALL
      ∧ (RS_CreatePrefixNode wSp (some "title") "fox").pay
        = .pfx "fox" "fox".length false 0
      ∧ (RS_CreatePrefixNode wSp (some "title") "fox").opts.fieldMask = 1
      ∧ (RS_CreatePrefixNode wSp none "fox").pay = .pfx "fox" "fox".length false 0
      ∧ (RS_CreatePrefixNode wSp none "fox").opts.fieldMask = RS_FIELDMASK_ALL) :=
  ⟨rfl, token_copy_and_scoping wSp "title" "fox" 1 rfl⟩

/-- C6: every container-only operation applied to a node whose type tag is
not the matching container variant is rejected by the assertion-style guard
(no result, nothing appended): the union entry points require QN_UNION, the
intersect entry points QN_PHRASE, and tag add-child QN_TAG. -/
theorem container_ops_guarded (qn c : QueryNode) (i : Nat) :
    (qn.type ≠ QNType.QN_UNION →
      RS_UnionNodeAddChild qn c = none
      ∧ RS_UnionNodeClearChildren qn = none
      ∧ RS_UnionNodeGetNumChildren qn = none
      ∧ RS_UnionNodeGetChild qn i = none)
    ∧ (qn.type ≠ QNType.QN_PHRASE →
      RS_IntersectNodeAddChild qn c = none
      ∧ RS_IntersectNodeClearChildren qn = none
      ∧ RS_IntersectNodeGetNumChildren qn = none
      ∧ RS_IntersectNodeGetChild qn i = none)
    ∧ (qn.type ≠ QNType.QN_TAG → RS_TagNodeAddChild qn c = none) := by
  obtain ⟨p, o⟩ := qn
  cases p <;>
    simp [QueryNode.type, RS_UnionNodeAddChild, RS_UnionNodeClearChildren,
      RS_UnionNodeGetNumChildren, RS_UnionNodeGetChild, RS_IntersectNodeAddChild,
      QueryPhraseNode_AddChild, RS_IntersectNodeClearChildren,
      RS_IntersectNodeGetNumChildren, RS_IntersectNodeGetChild, RS_TagNodeAddChild,
      QueryTagNode_AddChildren]

/-- C6 witness: a token node is none of the container variants, and every
container-only operation on it is rejected. -/
theorem container_ops_guarded_witness :
    (RS_UnionNodeAddChild wTokQuick wTokBrown = none
      ∧ RS_UnionNodeClearChildren wTokQuick = none
      ∧ RS_UnionNodeGetNumChildren wTokQuick = none
      ∧ RS_UnionNodeGetChild wTokQuick 0 = none)
    ∧ (RS_IntersectNodeAddChild wTokQuick wTokBrown = none
      ∧ RS_IntersectNodeClearChildren wTokQuick = none
      ∧ RS_IntersectNodeGetNumChildren wTokQuick = none
      ∧ RS_IntersectNodeGetChild wTokQuick 0 = none)
    ∧ RS_TagNodeAddChild wTokQuick wTokBrown = none :=
  ⟨(container_ops_guarded wTokQuick wTokBrown 0).1 (by decide),
    (container_ops_guarded wTokQuick wTokBrown 0).2.1 (by decide),
    (container_ops_guarded wTokQuick wTokBrown 0).2.2 (by decide)⟩

/-- C7: after addChild-ing the N children cs to a fresh Phrase or Union node,
getChildCount returns N, and getChild i returns the i-th inserted child in
insertion order for every i < N while an out-of-range index is rejected by
the guard — together: getChild i equals cs[i]?. -/
theorem children_count_and_order (sp : IndexSpec) (exact : Bool)
    (cs : List QueryNode) (i : Nat) :
    RS_IntersectNodeGetNumChildren
        (addChildren RS_IntersectNodeAddChild (RS_CreateIntersectNode sp exact) cs)
      = some cs.length
    ∧ RS_IntersectNodeGetChild
        (addChildren RS_IntersectNodeAddChild (RS_CreateIntersectNode sp exact) cs) i
      = cs[i]?
    ∧ RS_UnionNodeGetNumChildren
        (addChildren RS_UnionNodeAddChild (RS_CreateUnionNode sp) cs)
      = some cs.length
    ∧ RS_UnionNodeGetChild
        (addChildren RS_UnionNodeAddChild (RS_CreateUnionNode sp) cs) i
      = cs[i]? := by
  have hpn : addChildren RS_IntersectNodeAddChild (RS_CreateIntersectNode sp exact) cs
      = QueryNode.mk (.pn cs cs.length exact) { fieldMask := RS_FIELDMASK_ALL } := by
    have := addChildren_pn [] exact { fieldMask := RS_FIELDMASK_ALL } cs
    simpa [RS_CreateIntersectNode, NewQueryNode] using this
  have hun : addChildren RS_UnionNodeAddChild (RS_CreateUnionNode sp) cs
      = QueryNode.mk (.un cs cs.length) { fieldMask := RS_FIELDMASK_ALL } := by
    have := addChildren_un [] { fieldMask := RS_FIELDMASK_ALL } cs
    simpa [RS_CreateUnionNode, NewQueryNode] using this
  rw [hpn, hun]
  refine ⟨rfl, ?_, rfl, ?_⟩ <;>
  · by_cases hi : i < cs.length
    · simp [RS_IntersectNodeGetChild, RS_UnionNodeGetChild, hi]
    · simp [RS_IntersectNodeGetChild, RS_UnionNodeGetChild, hi,
        List.getElem?_eq_none (Nat.le_of_not_lt hi)]

/-- C8: clearChildren on a Phrase or Union node zeroes the child count only:
the children array — the detached child nodes with their subtrees — and all
other node state (exact flag, options) are returned unchanged, and the freed
trace is empty, i.e. no node is freed. -/
theorem clear_children_frame (arr : List QueryNode) (n : Nat) (exact : Bool)
    (o : QueryNodeOptions) :
    RS_IntersectNodeClearChildren (.mk (.pn arr n exact) o)
      = some (.mk (.pn arr 0 exact) o, [])
    ∧ RS_UnionNodeClearChildren (.mk (.un arr n) o) = some (.mk (.un arr 0) o, []) :=
  ⟨rfl, rfl⟩

/-- C9: RS_ResultsIteratorNext reads identifiers in order, skips every
identifier whose document-table key lookup fails, and returns the first
resolvable external key — the head of the successful lookups; it returns
none exactly when the read sequence exhausts without a resolvable key, and a
failed lookup never aborts the traversal with an error (the loop is total
and simply continues). -/
theorem results_iterator_next_spec (sp : IndexSpec) (iter : List Nat) :
    RS_ResultsIteratorNext iter sp
      = (iter.filterMap (DocTable_GetKey sp.docs)).head? := by
  induction iter with
  | nil => rfl
  | cons i rest ih =>
    cases h : DocTable_GetKey sp.docs i <;>
      simp [RS_ResultsIteratorNext, h, ih]

/-- C10: RS_SpecAddDocument submits the document with the replace option bit
set if and only if the document's key is already present in the index's
document table (its internal id is nonzero); a fresh key is submitted as a
plain add without the replace bit; the no-save bit is always set. -/
theorem add_document_replace_iff (sp : IndexSpec) (d : Document) :
    ((RS_SpecAddDocument sp d) &&& DOCUMENT_ADD_REPLACE ≠ 0
      ↔ DocTable_GetIdR sp.docs d.docKey ≠ 0)
    ∧ (RS_SpecAddDocument sp d) &&& DOCUMENT_ADD_NOSAVE ≠ 0 := by
  by_cases h : DocTable_GetIdR sp.docs d.docKey = 0 <;>
    simp [RS_SpecAddDocument, h, DOCUMENT_ADD_REPLACE, DOCUMENT_ADD_NOSAVE]

end RediSearchApi
